import Mathlib

/-!
Verification of the `jorgenhl/prime` repository.

The Python sources are shallowly embedded as Lean definitions:

* `prime_finder.py`            → namespace `PrimeFinder`
* `src/prime_finder_parallel.py` → namespace `PrimeFinderParallel`
* `src/prime_finder_checkpoint.py` → namespace `PrimeFinderCheckpoint`
* `benchmarks/benchmark.py`    → namespace `Benchmark`
* `benchmarks/benchmark_parallel.py` → namespace `BenchmarkParallel`

Python integers are modelled as `ℤ`/`ℕ`, Python floats that hold time
values as `ℚ`, Python lists as `List`, raised exceptions as `Except`,
and `None` as `Option.none`.  `time.time()` is modelled by an explicit
clock stream `clock : ℕ → ℚ`; each call of `time.time()` consumes the
next stream element.  `multiprocessing.Pool.map` preserves the order of
its input list regardless of worker completion order, so it is modelled
as `List.map`; the worker count is threaded through as an (operationally
irrelevant) parameter.
-/

namespace PrimeFinder

/-- Embedding of `prime_finder.is_prime`.  `int(n**0.5)` is modelled as
`Nat.sqrt`, the exact integer square root, and the stepped
`range(3, int(n**0.5) + 1, 2)` as a `List.range'` with step 2: its
elements are `3, 5, 7, …` up to and including `Nat.sqrt n`. -/
def is_prime (n : ℤ) : Bool :=
  if n < 2 then false
  else if n = 2 then true
  else if n % 2 = 0 then false
  else (List.range' 3 ((Nat.sqrt n.toNat - 1) / 2) 2).all fun i => n.toNat % i != 0

/-- Elements of the odd trial-division range are exactly the odd numbers
`3 ≤ i ≤ s`. -/
lemma mem_oddRange {s i : ℕ} :
    i ∈ List.range' 3 ((s - 1) / 2) 2 ↔ 3 ≤ i ∧ i ≤ s ∧ i % 2 = 1 := by
  rw [List.mem_range']
  constructor
  · rintro ⟨j, hj, rfl⟩
    omega
  · rintro ⟨h3, hs, hodd⟩
    exact ⟨(i - 3) / 2, by omega, by omega⟩

/-- Trial division by the odd numbers up to `Nat.sqrt m` decides primality
of an odd `m ≥ 3`. -/
lemma oddTrial_iff_prime {m : ℕ} (h3 : 3 ≤ m) (hodd : m % 2 = 1) :
    (((List.range' 3 ((Nat.sqrt m - 1) / 2) 2).all fun i => m % i != 0) = true)
      ↔ Nat.Prime m := by
  rw [List.all_eq_true]
  constructor
  · intro hall
    rw [Nat.prime_def_le_sqrt]
    refine ⟨by omega, fun d h2 hle hdvd => ?_⟩
    have hmod : m % d = 0 := Nat.dvd_iff_mod_eq_zero.mp hdvd
    rcases Nat.even_or_odd d with he | ho
    · obtain ⟨k, hk⟩ := he
      have h2m : 2 ∣ m := dvd_trans ⟨k, by omega⟩ hdvd
      have : m % 2 = 0 := Nat.dvd_iff_mod_eq_zero.mp h2m
      omega
    · have hd2 : d % 2 = 1 := Nat.odd_iff.mp ho
      have hmem : d ∈ List.range' 3 ((Nat.sqrt m - 1) / 2) 2 :=
        mem_oddRange.mpr ⟨by omega, hle, hd2⟩
      have := hall d hmem
      simp only [ne_eq, bne_iff_ne] at this
      exact this hmod
  · intro hp i hi
    obtain ⟨hi3, his, _⟩ := mem_oddRange.mp hi
    simp only [ne_eq, bne_iff_ne]
    intro hmod
    have hdvd : i ∣ m := Nat.dvd_iff_mod_eq_zero.mpr hmod
    rcases (Nat.Prime.eq_one_or_self_of_dvd hp i hdvd) with h1 | hm
    · omega
    · have : Nat.sqrt m < m := Nat.sqrt_lt_self (by omega)
      omega

/-- `is_prime` agrees with mathematical primality. -/
lemma is_prime_iff (n : ℤ) : is_prime n = true ↔ 2 ≤ n ∧ Nat.Prime n.toNat := by
  unfold is_prime
  split
  · simp only [Bool.false_eq_true, false_iff]
    omega
  · split
    · simp only [true_iff]
      subst_vars
      exact ⟨le_refl 2, by decide⟩
    · split
      · simp only [Bool.false_eq_true, false_iff]
        rintro ⟨h2, hp⟩
        have h2' : (2 : ℕ) ∣ n.toNat := by omega
        rcases Nat.Prime.eq_one_or_self_of_dvd hp 2 h2' with h | h <;> omega
      · rename_i hlt heq hmod
        have h3 : 3 ≤ n.toNat := by omega
        have hodd : n.toNat % 2 = 1 := by omega
        rw [oddTrial_iff_prime h3 hodd]
        constructor
        · exact fun hp => ⟨by omega, hp⟩
        · exact fun h => h.2

/-- `is_prime` as a kernel-computable predicate (used to evaluate the
embedding at concrete inputs, since `Nat.sqrt` does not reduce). -/
lemma is_prime_eq_decide (n : ℤ) :
    is_prime n = decide (2 ≤ n ∧ Nat.Prime n.toNat) := by
  by_cases hc : 2 ≤ n ∧ Nat.Prime n.toNat
  · rw [(is_prime_iff n).mpr hc]
    simp [hc]
  · have h1 : is_prime n = false :=
      Bool.not_eq_true _ |>.mp fun h => hc ((is_prime_iff n).mp h)
    rw [h1]
    simp [hc]

/-- Python's `range(a, b)` over integers: the list `a, a+1, …, b-1`
(empty when `b ≤ a`). -/
def pyRange (a b : ℤ) : List ℤ :=
  (List.range (b - a).toNat).map fun i : ℕ => a + (i : ℤ)

lemma mem_pyRange {a b x : ℤ} : x ∈ pyRange a b ↔ a ≤ x ∧ x < b := by
  unfold pyRange
  simp only [List.mem_map, List.mem_range]
  constructor
  · rintro ⟨i, hi, rfl⟩
    omega
  · rintro ⟨h1, h2⟩
    exact ⟨(x - a).toNat, by omega, by omega⟩

lemma pyRange_pairwise (a b : ℤ) : (pyRange a b).Pairwise (· < ·) := by
  unfold pyRange
  rw [List.pairwise_map]
  exact (List.pairwise_lt_range _).imp fun h => by omega

/-- Embedding of `prime_finder.find_primes_up_to`:
`[n for n in range(2, limit + 1) if is_prime(n)]`. -/
def find_primes_up_to (limit : ℤ) : List ℤ :=
  (pyRange 2 (limit + 1)).filter fun n => is_prime n

lemma mem_find_primes_up_to {limit n : ℤ} :
    n ∈ find_primes_up_to limit ↔ 2 ≤ n ∧ n ≤ limit ∧ is_prime n = true := by
  unfold find_primes_up_to
  rw [List.mem_filter, mem_pyRange]
  constructor
  · rintro ⟨⟨h1, h2⟩, h3⟩
    exact ⟨h1, by omega, h3⟩
  · rintro ⟨h1, h2, h3⟩
    exact ⟨⟨h1, by omega⟩, h3⟩

lemma find_primes_up_to_pairwise (limit : ℤ) :
    (find_primes_up_to limit).Pairwise (· < ·) :=
  (pyRange_pairwise 2 (limit + 1)).filter _

/-- Embedding of the body of the `while` loop of
`prime_finder.find_n_primes`: `primes` is the accumulated list and `num`
the next candidate. -/
def find_n_primes_go (count : ℕ) (primes : List ℤ) (num : ℕ) : List ℤ :=
  if primes.length < count then
    find_n_primes_go count
      (if is_prime (num : ℤ) then primes ++ [(num : ℤ)] else primes) (num + 1)
  else primes
termination_by (count - primes.length, Nat.find (Nat.exists_infinite_primes num) - num)
decreasing_by
  rename_i hlen
  split
  · rename_i hp
    left
    simp only [List.length_append, List.length_singleton]
    omega
  · rename_i hp
    have hnp : ¬ Nat.Prime num := by
      intro hn
      exact hp ((is_prime_iff _).mpr ⟨by exact_mod_cast Nat.Prime.two_le hn, by simpa using hn⟩)
    right
    have h1 := Nat.find_spec (Nat.exists_infinite_primes num)
    have h2 : num + 1 ≤ Nat.find (Nat.exists_infinite_primes num) := by
      rcases Nat.lt_or_ge num (Nat.find (Nat.exists_infinite_primes num)) with h | h
      · omega
      · exfalso
        have heq := Nat.le_antisymm h h1.1
        rw [heq] at h1
        exact hnp h1.2
    have h3 : Nat.find (Nat.exists_infinite_primes (num + 1)) ≤
        Nat.find (Nat.exists_infinite_primes num) :=
      Nat.find_min' _ ⟨h2, h1.2⟩
    omega

/-- Embedding of `prime_finder.find_n_primes`. -/
def find_n_primes (count : ℕ) : List ℤ :=
  find_n_primes_go count [] 2

end PrimeFinder

section NthPrime

/-- The smallest prime `≥ a` (the value the candidate scan of
`find_n_primes` reaches next from candidate `a`). -/
def leastPrimeFrom (a : ℕ) : ℕ :=
  Nat.find (Nat.exists_infinite_primes a)

/-- The list of the first `k` primes `≥ a`, in ascending order. -/
def nextPrimesFrom (a : ℕ) : ℕ → List ℕ
  | 0 => []
  | k + 1 => leastPrimeFrom a :: nextPrimesFrom (leastPrimeFrom a + 1) k

/-- The first `count` primes, in ascending order, as integers:
the reference value for both `find_n_primes` implementations. -/
noncomputable def firstPrimes (count : ℕ) : List ℤ :=
  (List.range count).map fun i : ℕ => ((Nat.nth Nat.Prime i : ℕ) : ℤ)

lemma leastPrimeFrom_spec (a : ℕ) :
    a ≤ leastPrimeFrom a ∧ Nat.Prime (leastPrimeFrom a) :=
  Nat.find_spec (Nat.exists_infinite_primes a)

lemma leastPrimeFrom_min {a q : ℕ} (h1 : a ≤ q) (h2 : Nat.Prime q) :
    leastPrimeFrom a ≤ q :=
  Nat.find_min' _ ⟨h1, h2⟩

lemma leastPrimeFrom_eq_nth (a : ℕ) :
    leastPrimeFrom a = Nat.nth Nat.Prime (Nat.count Nat.Prime a) := by
  have hinf := Nat.infinite_setOf_prime
  have hp : Nat.Prime (Nat.nth Nat.Prime (Nat.count Nat.Prime a)) :=
    Nat.nth_mem_of_infinite hinf _
  have hge : a ≤ Nat.nth Nat.Prime (Nat.count Nat.Prime a) := by
    by_contra h
    push_neg at h
    have h1 : Nat.count Nat.Prime (Nat.nth Nat.Prime (Nat.count Nat.Prime a) + 1) ≤
        Nat.count Nat.Prime a := Nat.count_monotone _ (Nat.succ_le_of_lt h)
    have h2 : Nat.count Nat.Prime (Nat.nth Nat.Prime (Nat.count Nat.Prime a) + 1) =
        Nat.count Nat.Prime a + 1 := by
      rw [Nat.count_succ, if_pos hp, Nat.count_nth_of_infinite hinf]
    omega
  apply le_antisymm
  · exact leastPrimeFrom_min hge hp
  · have h1 := leastPrimeFrom_spec a
    have h2 : Nat.nth Nat.Prime (Nat.count Nat.Prime (leastPrimeFrom a)) =
        leastPrimeFrom a := Nat.nth_count h1.2
    have h3 : Nat.count Nat.Prime a ≤ Nat.count Nat.Prime (leastPrimeFrom a) :=
      Nat.count_monotone _ h1.1
    calc Nat.nth Nat.Prime (Nat.count Nat.Prime a)
        ≤ Nat.nth Nat.Prime (Nat.count Nat.Prime (leastPrimeFrom a)) :=
          (Nat.nth_le_nth hinf).mpr h3
      _ = leastPrimeFrom a := h2

lemma count_leastPrimeFrom_succ (a : ℕ) :
    Nat.count Nat.Prime (leastPrimeFrom a + 1) = Nat.count Nat.Prime a + 1 := by
  have hinf := Nat.infinite_setOf_prime
  rw [leastPrimeFrom_eq_nth, Nat.count_succ,
    if_pos (Nat.nth_mem_of_infinite hinf _), Nat.count_nth_of_infinite hinf]

lemma nextPrimesFrom_eq_nth (k : ℕ) : ∀ a : ℕ,
    nextPrimesFrom a k =
      (List.range k).map fun j : ℕ => Nat.nth Nat.Prime (Nat.count Nat.Prime a + j) := by
  induction k with
  | zero => intro a; simp [nextPrimesFrom]
  | succ k ih =>
    intro a
    rw [nextPrimesFrom, ih (leastPrimeFrom a + 1), count_leastPrimeFrom_succ,
      List.range_succ_eq_map, leastPrimeFrom_eq_nth]
    rw [List.map_cons, List.map_map]
    refine List.cons_eq_cons.mpr ⟨by rw [Nat.add_zero], ?_⟩
    apply List.map_congr_left
    intro j _
    simp only [Function.comp_apply]
    congr 1
    omega

/-- Skipping a non-prime candidate does not change the primes found. -/
lemma nextPrimesFrom_succ_of_not_prime {a : ℕ} (h : ¬ Nat.Prime a) (k : ℕ) :
    nextPrimesFrom a k = nextPrimesFrom (a + 1) k := by
  cases k with
  | zero => rfl
  | succ k =>
    have heq : leastPrimeFrom a = leastPrimeFrom (a + 1) := by
      have h1 := leastPrimeFrom_spec a
      have h2 := leastPrimeFrom_spec (a + 1)
      have hne : leastPrimeFrom a ≠ a := fun he => h (he ▸ h1.2)
      apply le_antisymm
      · exact leastPrimeFrom_min (by omega) h2.2
      · refine leastPrimeFrom_min ?_ h1.2
        have := h1.1
        omega
    rw [nextPrimesFrom, nextPrimesFrom, heq]

/-- Taking the first prime immediately when the candidate is prime. -/
lemma leastPrimeFrom_self {a : ℕ} (h : Nat.Prime a) : leastPrimeFrom a = a :=
  le_antisymm (leastPrimeFrom_min (le_refl a) h) (leastPrimeFrom_spec a).1

end NthPrime

namespace PrimeFinder

/-- The accumulating loop of `find_n_primes` appends exactly the next
`count - primes.length` primes `≥ num`. -/
lemma find_n_primes_go_eq (count : ℕ) (primes : List ℤ) (num : ℕ) :
    find_n_primes_go count primes num =
      primes ++ (nextPrimesFrom num (count - primes.length)).map fun m : ℕ => (m : ℤ) := by
  induction primes, num using find_n_primes_go.induct count with
  | case1 primes num hlen ih =>
    rw [find_n_primes_go, if_pos hlen]
    by_cases hp : is_prime (num : ℤ) = true
    · rw [dif_pos hp] at ih
      rw [if_pos hp]
      have hnum : Nat.Prime num := by
        have := (is_prime_iff _).mp hp
        simpa using this.2
      rw [ih]
      have hcount : count - primes.length = (count - (primes ++ [(num : ℤ)]).length) + 1 := by
        simp only [List.length_append, List.length_singleton]
        omega
      rw [hcount, nextPrimesFrom, leastPrimeFrom_self hnum]
      simp
    · rw [dif_neg hp] at ih
      rw [if_neg hp]
      have hnum : ¬ Nat.Prime num := by
        intro hn
        exact hp ((is_prime_iff _).mpr
          ⟨by exact_mod_cast Nat.Prime.two_le hn, by simpa using hn⟩)
      rw [ih, nextPrimesFrom_succ_of_not_prime hnum]
  | case2 primes num hlen =>
    rw [find_n_primes_go, if_neg hlen]
    have h0 : count - primes.length = 0 := by omega
    rw [h0]
    simp [nextPrimesFrom]

/-- `find_n_primes` returns exactly the first `count` primes. -/
lemma find_n_primes_eq (count : ℕ) : find_n_primes count = firstPrimes count := by
  rw [find_n_primes, find_n_primes_go_eq, nextPrimesFrom_eq_nth]
  rw [show Nat.count Nat.Prime 2 = 0 from by decide]
  rw [List.map_map, firstPrimes]
  simp only [List.nil_append, List.length_nil, Nat.sub_zero]
  apply List.map_congr_left
  intro j _
  simp

lemma find_n_primes_length (count : ℕ) : (find_n_primes count).length = count := by
  rw [find_n_primes_eq, firstPrimes, List.length_map, List.length_range]

end PrimeFinder

section PrimesBelow

/-- The primes below `n`, in ascending order (reference value for the
range scanners). -/
def natPrimesBelow (n : ℕ) : List ℕ :=
  (List.range n).filter fun m => decide (Nat.Prime m)

lemma natPrimesBelow_eq_nth (n : ℕ) :
    natPrimesBelow n =
      (List.range (Nat.count Nat.Prime n)).map (Nat.nth Nat.Prime) := by
  induction n with
  | zero => simp [natPrimesBelow]
  | succ n ih =>
    rw [natPrimesBelow, List.range_succ, List.filter_append, ← natPrimesBelow, ih,
      Nat.count_succ]
    by_cases hp : Nat.Prime n
    · rw [if_pos hp]
      rw [List.range_succ, List.map_append, List.map_singleton]
      have hn : Nat.nth Nat.Prime (Nat.count Nat.Prime n) = n := Nat.nth_count hp
      simp [hp, hn]
    · rw [if_neg hp]
      simp [hp]

lemma natPrimesBelow_length (n : ℕ) :
    (natPrimesBelow n).length = Nat.count Nat.Prime n := by
  rw [natPrimesBelow_eq_nth, List.length_map, List.length_range]

end PrimesBelow

namespace PrimeFinder

lemma pyRange_two_natCast (b : ℕ) :
    pyRange 2 ((b : ℤ) + 1) = (List.range' 2 (b - 1)).map fun i : ℕ => (i : ℤ) := by
  rw [pyRange, show ((b : ℤ) + 1 - 2).toNat = b - 1 from by omega,
    List.range'_eq_map_range, List.map_map]
  apply List.map_congr_left
  intro i _
  simp only [Function.comp_apply]
  push_cast
  ring

/-- On natural-number limits, `find_primes_up_to` computes the primes up
to (and including) the limit. -/
lemma find_primes_up_to_natCast (b : ℕ) :
    find_primes_up_to (b : ℤ) = (natPrimesBelow (b + 1)).map fun m : ℕ => (m : ℤ) := by
  rcases Nat.eq_zero_or_pos b with rfl | hb
  · rw [find_primes_up_to]
    rw [show ((0 : ℕ) : ℤ) + 1 = 1 from by norm_num]
    rw [show pyRange 2 1 = [] from by decide]
    rw [show natPrimesBelow (0 + 1) = [] from by decide]
    rfl
  · rw [find_primes_up_to, pyRange_two_natCast, List.filter_map]
    have h2 : natPrimesBelow (b + 1) =
        (List.range' 2 (b - 1)).filter fun m => decide (Nat.Prime m) := by
      rw [natPrimesBelow, List.range_eq_range']
      rw [show b + 1 = (b - 1) + 2 from by omega, ← List.range'_append 0 2 (b - 1) 1]
      rw [List.filter_append]
      rw [show List.range' 0 2 1 = [0, 1] from by decide]
      rw [show List.filter (fun m => decide (Nat.Prime m)) [0, 1] = [] from by decide]
      norm_num
    rw [h2]
    congr 1
    apply List.filter_congr
    intro x hx
    have hx2 : 2 ≤ x := by
      rw [List.mem_range'] at hx
      omega
    simp only [Function.comp_apply]
    rw [is_prime_eq_decide]
    rw [decide_eq_decide]
    constructor
    · rintro ⟨h1, h2⟩
      simpa using h2
    · intro h
      exact ⟨by exact_mod_cast hx2, by simpa using h⟩

lemma find_primes_up_to_length (b : ℕ) :
    (find_primes_up_to (b : ℤ)).length = Nat.count Nat.Prime (b + 1) := by
  rw [find_primes_up_to_natCast, List.length_map, natPrimesBelow_length]

/-- Taking a prefix of the primes up to `b` gives the first primes. -/
lemma find_primes_up_to_take (b count : ℕ)
    (h : count ≤ Nat.count Nat.Prime (b + 1)) :
    (find_primes_up_to (b : ℤ)).take count = firstPrimes count := by
  rw [find_primes_up_to_natCast, natPrimesBelow_eq_nth, ← List.map_take, ← List.map_take,
    List.take_range, Nat.min_eq_left h, List.map_map, firstPrimes]
  rfl

end PrimeFinder

namespace PrimeFinderParallel

/-- `prime_finder_parallel.is_prime` is a verbatim copy of
`prime_finder.is_prime` in the source; it is embedded by reference. -/
def is_prime : ℤ → Bool := PrimeFinder.is_prime

/-- Embedding of `prime_finder_parallel.is_prime_with_num`: the worker
function receives a `(num, placeholder)` pair and returns
`(num, is_prime(num))`. -/
def is_prime_with_num (args : ℤ × Option Unit) : ℤ × Bool :=
  (args.1, is_prime args.1)

/-- Embedding of `prime_finder_parallel.find_primes_up_to_parallel`.
`Pool.map` returns results in the order of its input list regardless of
worker completion order, so it is modelled as `List.map`; the worker
count `num_processes` does not influence the value. -/
def find_primes_up_to_parallel (limit : ℤ) (num_processes : ℕ) : List ℤ :=
  if limit < 2 then []
  else
    let numbers := PrimeFinder.pyRange 2 (limit + 1)
    let work_items := numbers.map fun n => (n, (none : Option Unit))
    let results := work_items.map is_prime_with_num
    (results.filter fun r => r.2).map fun r => r.1

lemma map_pair_filter (l : List ℤ) :
    (((l.map fun n => (n, (none : Option Unit))).map is_prime_with_num).filter
        fun r => r.2).map (fun r => r.1) =
      l.filter fun n => is_prime n := by
  rw [List.map_map, List.filter_map, List.map_map]
  have h1 : ((fun r : ℤ × Bool => r.2) ∘ (is_prime_with_num ∘ fun n => (n, (none : Option Unit)))) =
      fun n : ℤ => is_prime n := rfl
  rw [h1]
  have h2 : ((fun r : ℤ × Bool => r.1) ∘ (is_prime_with_num ∘ fun n => (n, (none : Option Unit)))) =
      fun n : ℤ => n := rfl
  rw [h2]
  simp

/-- The parallel range scanner is output-equivalent to the sequential
one, for every worker count. -/
lemma find_primes_up_to_parallel_eq (limit : ℤ) (w : ℕ) :
    find_primes_up_to_parallel limit w = PrimeFinder.find_primes_up_to limit := by
  rw [find_primes_up_to_parallel]
  split
  · rename_i hlim
    rw [PrimeFinder.find_primes_up_to]
    have : PrimeFinder.pyRange 2 (limit + 1) = [] := by
      rw [PrimeFinder.pyRange, show (limit + 1 - 2).toNat = 0 from by omega]
      rfl
    rw [this]
    rfl
  · rw [map_pair_filter, PrimeFinder.find_primes_up_to]
    rfl

lemma find_primes_up_to_parallel_length (b w : ℕ) :
    (find_primes_up_to_parallel (b : ℤ) w).length = Nat.count Nat.Prime (b + 1) := by
  rw [find_primes_up_to_parallel_eq, PrimeFinder.find_primes_up_to_length]

/-- The bound-growth step of `find_n_primes_parallel`:
`upper_bound = int(upper_bound * 1.5)`, i.e. `⌊3·b/2⌋`. -/
def nextBound (b : ℕ) : ℕ :=
  3 * b / 2

lemma nextBound_eq_floor (b : ℕ) : nextBound b = ⌊(3 / 2 : ℚ) * b⌋₊ := by
  have h : (3 / 2 : ℚ) * b = ((3 * b : ℕ) : ℚ) / ((2 : ℕ) : ℚ) := by push_cast; ring
  rw [nextBound, h, Nat.floor_div_nat, Nat.floor_natCast]

/-- Embedding of the `while True:` expansion loop of
`find_n_primes_parallel`, parameterised by the current `upper_bound`.
The loop terminates because the bound grows strictly and a bound past
the `count`-th prime yields at least `count` primes. -/
def find_n_primes_parallel_from (count w bound : ℕ) (hb : 2 ≤ bound) : List ℤ :=
  if count ≤ (find_primes_up_to_parallel (bound : ℤ) w).length then
    (find_primes_up_to_parallel (bound : ℤ) w).take count
  else find_n_primes_parallel_from count w (nextBound bound) (by rw [nextBound]; omega)
termination_by Nat.nth Nat.Prime (count - 1) + 1 - bound
decreasing_by
  rename_i h
  push_neg at h
  rw [find_primes_up_to_parallel_length] at h
  have hcount : 1 ≤ count := by omega
  have hb2 : bound ≤ Nat.nth Nat.Prime (count - 1) := by
    by_contra hc
    push_neg at hc
    have h1 : Nat.count Nat.Prime (Nat.nth Nat.Prime (count - 1) + 1) ≤
        Nat.count Nat.Prime (bound + 1) := Nat.count_monotone _ (by omega)
    have h2 : Nat.count Nat.Prime (Nat.nth Nat.Prime (count - 1) + 1) =
        (count - 1) + 1 := by
      rw [Nat.count_succ, if_pos (Nat.nth_mem_of_infinite Nat.infinite_setOf_prime _),
        Nat.count_nth_of_infinite Nat.infinite_setOf_prime]
    omega
  rw [nextBound]
  omega

/-- The expansion loop always returns the first `count` primes,
whatever bound it starts from. -/
lemma find_n_primes_parallel_from_eq (count w bound : ℕ) (hb : 2 ≤ bound) :
    find_n_primes_parallel_from count w bound hb = firstPrimes count := by
  induction bound, hb using find_n_primes_parallel_from.induct count w with
  | case1 bound hb hle =>
    rw [find_n_primes_parallel_from]
    simp only [if_pos hle]
    rw [find_primes_up_to_parallel_eq]
    apply PrimeFinder.find_primes_up_to_take
    rw [find_primes_up_to_parallel_length] at hle
    exact hle
  | case2 bound hb hgt ih =>
    rw [find_n_primes_parallel_from]
    simp only [if_neg hgt]
    exact ih

/-- The iteration structure of the expansion loop: it stops at the first
bound in the sequence `b, nextBound b, nextBound (nextBound b), …` whose
scan yields at least `count` primes, and returns the first `count` of
that scan. -/
lemma find_n_primes_parallel_from_iter (count w bound : ℕ) (hb : 2 ≤ bound) :
    ∃ k : ℕ,
      (∀ j < k, (find_primes_up_to_parallel ((nextBound^[j] bound : ℕ) : ℤ) w).length < count) ∧
      count ≤ (find_primes_up_to_parallel ((nextBound^[k] bound : ℕ) : ℤ) w).length ∧
      find_n_primes_parallel_from count w bound hb =
        (find_primes_up_to_parallel ((nextBound^[k] bound : ℕ) : ℤ) w).take count := by
  induction bound, hb using find_n_primes_parallel_from.induct count w with
  | case1 bound hb hle =>
    refine ⟨0, by omega, by simpa using hle, ?_⟩
    rw [find_n_primes_parallel_from]
    simp only [if_pos hle, Function.iterate_zero_apply]
  | case2 bound hb hgt ih =>
    obtain ⟨k, hk1, hk2, hk3⟩ := ih
    refine ⟨k + 1, ?_, ?_, ?_⟩
    · intro j hj
      cases j with
      | zero =>
        simp only [Function.iterate_zero_apply]
        omega
      | succ i =>
        rw [Function.iterate_succ_apply]
        exact hk1 i (by omega)
    · rw [Function.iterate_succ_apply]
      exact hk2
    · rw [find_n_primes_parallel_from]
      simp only [if_neg hgt]
      rw [hk3, Function.iterate_succ_apply]

/-- Embedding of the initial `upper_bound` estimate of
`find_n_primes_parallel`: 15 for `count < 6`, otherwise the integer
truncation of `count * (ln count + ln (ln count))` (the source computes
this with floating point; the value is positive, so `int()` truncation
agrees with the floor). -/
noncomputable def initial_upper_bound (count : ℕ) : ℤ :=
  if count < 6 then 15
  else ⌊(count : ℝ) * (Real.log count + Real.log (Real.log count))⌋

lemma initial_upper_bound_ge_six {count : ℕ} (h : 6 ≤ count) :
    6 ≤ initial_upper_bound count := by
  rw [initial_upper_bound, if_neg (by omega)]
  rw [Int.le_floor]
  have hc : (6 : ℝ) ≤ (count : ℝ) := by exact_mod_cast h
  have he : Real.exp 1 < 6 := lt_of_lt_of_le Real.exp_one_lt_d9 (by norm_num)
  have h1 : 1 < Real.log 6 := by
    have := Real.log_lt_log (Real.exp_pos 1) he
    rwa [Real.log_exp] at this
  have h2 : Real.log 6 ≤ Real.log count := Real.log_le_log (by norm_num) hc
  have h3 : 1 < Real.log count := lt_of_lt_of_le h1 h2
  have h4 : 0 < Real.log (Real.log count) := Real.log_pos h3
  have h5 : (1 : ℝ) ≤ Real.log count + Real.log (Real.log count) := by linarith
  calc ((6 : ℤ) : ℝ) = 6 * 1 := by norm_num
    _ ≤ (count : ℝ) * (Real.log count + Real.log (Real.log count)) := by nlinarith

lemma initial_upper_bound_toNat_ge_two {count : ℕ} (h : 2 ≤ count) :
    2 ≤ (initial_upper_bound count).toNat := by
  rcases Nat.lt_or_ge count 6 with h6 | h6
  · rw [initial_upper_bound, if_pos h6]
    decide
  · have h7 := initial_upper_bound_ge_six h6
    omega

/-- Embedding of `prime_finder_parallel.find_n_primes_parallel`. -/
noncomputable def find_n_primes_parallel (count w : ℕ) : List ℤ :=
  if h0 : count = 0 then []
  else if h1 : count = 1 then [2]
  else
    find_n_primes_parallel_from count w (initial_upper_bound count).toNat
      (initial_upper_bound_toNat_ge_two (by omega))

lemma nth_prime_val {m i : ℕ} (hp : Nat.Prime m) (hc : Nat.count Nat.Prime m = i) :
    Nat.nth Nat.Prime i = m := by
  rw [← hc]
  exact Nat.nth_count hp

lemma nth_prime_zero : Nat.nth Nat.Prime 0 = 2 :=
  nth_prime_val (by decide) (by decide)

lemma nth_prime_one : Nat.nth Nat.Prime 1 = 3 :=
  nth_prime_val (by decide) (by decide)

lemma nth_prime_two : Nat.nth Nat.Prime 2 = 5 :=
  nth_prime_val (by decide) (by decide)

lemma nth_prime_three : Nat.nth Nat.Prime 3 = 7 :=
  nth_prime_val (by decide) (by decide)

lemma nth_prime_four : Nat.nth Nat.Prime 4 = 11 :=
  nth_prime_val (by decide) (by decide)

/-- `find_n_primes_parallel` also returns the first `count` primes, for
every worker count. -/
lemma find_n_primes_parallel_eq (count w : ℕ) :
    find_n_primes_parallel count w = firstPrimes count := by
  rw [find_n_primes_parallel]
  split
  · rename_i h0
    rw [h0, firstPrimes]
    rfl
  · split
    · rename_i h1
      rw [h1, firstPrimes, show List.range 1 = [0] from rfl, List.map_singleton,
        nth_prime_zero]
      rfl
    · exact find_n_primes_parallel_from_eq _ _ _ _

lemma find_n_primes_parallel_length (count w : ℕ) :
    (find_n_primes_parallel count w).length = count := by
  rw [find_n_primes_parallel_eq, firstPrimes, List.length_map, List.length_range]

end PrimeFinderParallel

section CheckpointModel

/-- A parsed checkpoint record.  The saved `timestamp` field is never
read back by any loader, so it is not modelled; `num_processes` is only
written and read by the parallel benchmark and is absent (`none`) in the
other writers' files. -/
structure Checkpoint where
  count : ℕ
  elapsed_time : ℚ
  num_processes : Option ℕ
deriving DecidableEq

/-- The state of a checkpoint file on disk: absent, present but not
valid JSON, or a well-formed record. -/
inductive CheckpointFile where
  | missing
  | malformed
  | wellFormed (c : Checkpoint)
deriving DecidableEq

/-- One `save_checkpoint` call, instrumented with the length of the
prime list held in memory at the moment of the save (`memLen`). -/
structure SaveEvent where
  count : ℕ
  elapsed : ℚ
  memLen : ℕ
deriving DecidableEq

end CheckpointModel

namespace PrimeFinderCheckpoint

/-- Embedding of `prime_finder_checkpoint.load_checkpoint`.  The file is
read with `json.load` and no exception handler, so a malformed file
raises (propagates `json.JSONDecodeError`), modelled as `Except.error`. -/
def load_checkpoint (fs : CheckpointFile) : Except Unit (Option Checkpoint) :=
  match fs with
  | .missing => .ok none
  | .malformed => .error ()
  | .wellFormed c => .ok (some c)

inductive RunError where
  | jsonDecodeError
  | unboundLocalError
deriving DecidableEq

inductive Outcome where
  | completed
  | timedOut
deriving DecidableEq

/-- Observable outcome of a `find_primes_with_checkpoint` run: the save
events in order, the final file state, the final value of the `primes`
variable, whether the completion path removed the checkpoint file, and
how the run ended (`sys.exit(0)` on timeout is `timedOut`). -/
structure RunResult where
  saves : List SaveEvent
  file : CheckpointFile
  primesVar : Option (List ℤ)
  removed : Bool
  outcome : Outcome
deriving DecidableEq

/-- Python truthiness of the `time_limit` argument in
`if time_limit and (time.time() - start_time) > time_limit`. -/
def timeLimitActive : Option ℚ → Bool
  | none => false
  | some t => t != 0

/-- `os.path.exists(CHECKPOINT_FILE)`. -/
def existsFile : CheckpointFile → Bool
  | .missing => false
  | .malformed => true
  | .wellFormed _ => true

/-- Embedding of the `while count < target_count` loop of
`find_primes_with_checkpoint`.  `clock i` is the value of
`time.time() - start_time` at the `i`-th time read; `pv` is the `primes`
local variable (`none` before its first assignment).  The interval is a
positive natural because the loop does not terminate for a zero
interval. -/
def runLoop (target : ℕ) (interval : ℕ+) (tl : Option ℚ) (clock : ℕ → ℚ)
    (count tick : ℕ) (pv : Option (List ℤ)) (saves : List SaveEvent)
    (file : CheckpointFile) : Except RunError RunResult :=
  if h : count < target then
    if timeLimitActive tl ∧ tl.getD 0 < clock tick then
      Except.ok ⟨saves ++ [⟨count, clock (tick + 1), (pv.getD []).length⟩],
        .wellFormed ⟨count, clock (tick + 1), none⟩, pv, false, .timedOut⟩
    else
      runLoop target interval tl clock (min (count + interval) target)
        ((if timeLimitActive tl then tick + 1 else tick) + 1)
        (some (PrimeFinder.find_n_primes (min (count + interval) target)))
        (saves ++ [⟨min (count + interval) target,
          clock (if timeLimitActive tl then tick + 1 else tick),
          (PrimeFinder.find_n_primes (min (count + interval) target)).length⟩])
        (.wellFormed ⟨min (count + interval) target,
          clock (if timeLimitActive tl then tick + 1 else tick), none⟩)
  else
    match pv with
    | none => Except.error RunError.unboundLocalError
    | some ps =>
      Except.ok ⟨saves, .missing, some ps, existsFile file, .completed⟩
termination_by target - count
decreasing_by
  have hpos : 0 < (interval : ℕ) := interval.pos
  omega

/-- Embedding of `prime_finder_checkpoint.find_primes_with_checkpoint`. -/
def find_primes_with_checkpoint (target : ℕ) (interval : ℕ+) (tl : Option ℚ)
    (clock : ℕ → ℚ) (fs : CheckpointFile) : Except RunError RunResult :=
  match load_checkpoint fs with
  | .error _ => .error .jsonDecodeError
  | .ok ckpt =>
      runLoop target interval tl clock
        (match ckpt with | some c => c.count | none => 0) 0 none [] fs

end PrimeFinderCheckpoint

namespace PrimeFinderCheckpoint

/-- Loop invariantly extends the save log; every batch save records the
in-memory length; completion removes the file; the first completed run
through the loop has saved at least once. -/
lemma runLoop_ok (target : ℕ) (interval : ℕ+) (tl : Option ℚ) (clock : ℕ → ℚ) :
    ∀ (count tick : ℕ) (pv : Option (List ℤ)) (saves : List SaveEvent)
      (file : CheckpointFile) (r : RunResult),
      runLoop target interval tl clock count tick pv saves file = .ok r →
      ∃ t, r.saves = saves ++ t ∧
        ((pv.getD []).length = count → ∀ ev ∈ t, ev.count = ev.memLen) ∧
        (r.outcome = .completed → r.file = .missing ∧
          ((pv = none ∨ file ≠ .missing) → r.removed = true) ∧
          (pv = none → t ≠ [])) := by
  intro count tick pv saves file
  induction count, tick, pv, saves, file using runLoop.induct target interval tl clock with
  | case1 count tick pv saves file hlt hcond =>
    intro r hr
    rw [runLoop.eq_def, dif_pos hlt, if_pos hcond] at hr
    have hr2 : (⟨saves ++ [⟨count, clock (tick + 1), (pv.getD []).length⟩],
        .wellFormed ⟨count, clock (tick + 1), none⟩, pv, false, .timedOut⟩ : RunResult) = r := by
      injection hr
    subst hr2
    refine ⟨[⟨count, clock (tick + 1), (pv.getD []).length⟩], rfl, ?_, ?_⟩
    · intro hlen ev hev
      rw [List.mem_singleton] at hev
      subst hev
      exact hlen.symm
    · intro hout
      exact absurd hout (by simp)
  | case2 count tick pv saves file hlt hcond ih =>
    intro r hr
    rw [runLoop.eq_def, dif_pos hlt, if_neg hcond] at hr
    obtain ⟨t', h1, h2, h3⟩ := ih r hr
    refine ⟨⟨min (count + interval) target,
        clock (if timeLimitActive tl = true then tick + 1 else tick),
        (PrimeFinder.find_n_primes (min (count + interval) target)).length⟩ :: t', ?_, ?_, ?_⟩
    · rw [h1, List.append_assoc]
      rfl
    · intro _ ev hev
      rcases List.mem_cons.mp hev with rfl | hmem
      · exact (PrimeFinder.find_n_primes_length _).symm
      · refine h2 ?_ ev hmem
        simp [PrimeFinder.find_n_primes_length]
    · intro hout
      obtain ⟨hf, hrem, _⟩ := h3 hout
      refine ⟨hf, fun _ => hrem ?_, fun _ => by simp⟩
      right
      simp
  | case3 count tick saves file hlt =>
    intro r hr
    rw [runLoop.eq_def, dif_neg hlt] at hr
    exact absurd hr (by simp)
  | case4 count tick saves file hlt ps =>
    intro r hr
    rw [runLoop.eq_def, dif_neg hlt] at hr
    have hr2 : (⟨saves, .missing, some ps, existsFile file, .completed⟩ : RunResult) = r := by
      injection hr
    subst hr2
    refine ⟨[], by simp, by simp, ?_⟩
    intro _
    refine ⟨rfl, ?_, by simp⟩
    rintro (h | h)
    · exact absurd h (by simp)
    · cases file with
      | missing => exact absurd rfl h
      | malformed => rfl
      | wellFormed c => rfl

/-- The loop's result does not depend on the initial file state beyond
whether the file exists. -/
lemma runLoop_file_congr (target : ℕ) (interval : ℕ+) (tl : Option ℚ)
    (clock : ℕ → ℚ) (count tick : ℕ) (pv : Option (List ℤ))
    (saves : List SaveEvent) (file file' : CheckpointFile)
    (hf : file = .missing ↔ file' = .missing) :
    runLoop target interval tl clock count tick pv saves file =
      runLoop target interval tl clock count tick pv saves file' := by
  conv_lhs => rw [runLoop.eq_def]
  conv_rhs => rw [runLoop.eq_def]
  have hex : existsFile file = existsFile file' := by
    cases file <;> cases file' <;> simp_all [existsFile]
  rw [hex]

end PrimeFinderCheckpoint

namespace PrimeFinderCheckpoint

/-- A completed run (target reached) removed the checkpoint file and had
saved a checkpoint after every batch (at least one). -/
lemma run_completed (target : ℕ) (interval : ℕ+) (tl : Option ℚ)
    (clock : ℕ → ℚ) (fs : CheckpointFile) (r : RunResult)
    (hr : find_primes_with_checkpoint target interval tl clock fs = .ok r)
    (hout : r.outcome = .completed) :
    r.file = .missing ∧ r.removed = true ∧ r.saves ≠ [] := by
  rw [find_primes_with_checkpoint] at hr
  cases fs with
  | malformed => exact absurd hr (by simp [load_checkpoint])
  | missing =>
    simp only [load_checkpoint] at hr
    obtain ⟨t, h1, _, h3⟩ := runLoop_ok target interval tl clock _ _ _ _ _ _ hr
    obtain ⟨hf, hrem, hne⟩ := h3 hout
    refine ⟨hf, hrem (Or.inl rfl), ?_⟩
    rw [h1, List.nil_append]
    exact hne rfl
  | wellFormed c =>
    simp only [load_checkpoint] at hr
    obtain ⟨t, h1, _, h3⟩ := runLoop_ok target interval tl clock _ _ _ _ _ _ hr
    obtain ⟨hf, hrem, hne⟩ := h3 hout
    refine ⟨hf, hrem (Or.inl rfl), ?_⟩
    rw [h1, List.nil_append]
    exact hne rfl

/-- In a fresh run (no checkpoint file), every saved count equals the
length of the prime list in memory at the moment of the save. -/
lemma run_saves_match_of_missing (target : ℕ) (interval : ℕ+) (tl : Option ℚ)
    (clock : ℕ → ℚ) (r : RunResult)
    (hr : find_primes_with_checkpoint target interval tl clock .missing = .ok r) :
    ∀ ev ∈ r.saves, ev.count = ev.memLen := by
  rw [find_primes_with_checkpoint] at hr
  simp only [load_checkpoint] at hr
  obtain ⟨t, h1, h2, _⟩ := runLoop_ok target interval tl clock _ _ _ _ _ _ hr
  rw [h1, List.nil_append]
  exact h2 rfl

/-- Starting from a checkpoint whose count has already reached the
target, the loop body never runs and the completion summary reads the
unassigned `primes` variable. -/
lemma run_unboundLocal (target : ℕ) (interval : ℕ+) (tl : Option ℚ)
    (clock : ℕ → ℚ) (c : ℕ) (e : ℚ) (np : Option ℕ) (hc : target ≤ c) :
    find_primes_with_checkpoint target interval tl clock
        (.wellFormed ⟨c, e, np⟩) = .error .unboundLocalError := by
  rw [find_primes_with_checkpoint]
  simp only [load_checkpoint]
  rw [runLoop.eq_def, dif_neg (by omega)]

/-- The run ignores the checkpoint's recorded elapsed time entirely:
only the count is read back. -/
lemma run_ignores_elapsed (target : ℕ) (interval : ℕ+) (tl : Option ℚ)
    (clock : ℕ → ℚ) (c : ℕ) (e e' : ℚ) (np np' : Option ℕ) :
    find_primes_with_checkpoint target interval tl clock (.wellFormed ⟨c, e, np⟩) =
      find_primes_with_checkpoint target interval tl clock (.wellFormed ⟨c, e', np'⟩) := by
  rw [find_primes_with_checkpoint, find_primes_with_checkpoint]
  simp only [load_checkpoint]
  exact runLoop_file_congr _ _ _ _ _ _ _ _ _ _ (by simp)

/-- The sequence of counts the batch loop of
`find_primes_with_checkpoint` runs through from current count `c`: each
batch advances the count to `min (c + interval) target` until the
target is reached, and the loop saves exactly one checkpoint per
entry. -/
def batchCounts (target : ℕ) (interval : ℕ+) (c : ℕ) : List ℕ :=
  if c < target then
    min (c + interval) target :: batchCounts target interval (min (c + interval) target)
  else []
termination_by target - c
decreasing_by
  have hpos : 0 < (interval : ℕ) := interval.pos
  omega

/-- The starting count `find_primes_with_checkpoint` resolves from the
checkpoint file: the checkpoint's count, else 0. -/
def startCountOf : CheckpointFile → ℕ
  | .wellFormed c => c.count
  | .missing => 0
  | .malformed => 0

/-- Full characterization of the save log of the loop.  A completed run
has saved exactly one checkpoint per batch, in order (`batchCounts`); a
timed-out run has saved one checkpoint per executed batch followed by
the timeout save, which repeats the last count, and exits with
`removed = false` and the checkpoint file still holding that last
save. -/
lemma runLoop_log (target : ℕ) (interval : ℕ+) (tl : Option ℚ) (clock : ℕ → ℚ) :
    ∀ (count tick : ℕ) (pv : Option (List ℤ)) (saves : List SaveEvent)
      (file : CheckpointFile) (r : RunResult),
      runLoop target interval tl clock count tick pv saves file = .ok r →
      (r.outcome = .completed →
        r.saves.map (fun ev => ev.count) =
          saves.map (fun ev => ev.count) ++ batchCounts target interval count) ∧
      (r.outcome = .timedOut →
        r.removed = false ∧
        (∃ ev, r.saves.getLast? = some ev ∧
          r.file = .wellFormed ⟨ev.count, ev.elapsed, none⟩) ∧
        ∃ k, r.saves.map (fun ev => ev.count) =
          saves.map (fun ev => ev.count) ++
            ((batchCounts target interval count).take k ++
              [((batchCounts target interval count).take k).getLastD count])) := by
  intro count tick pv saves file
  induction count, tick, pv, saves, file using runLoop.induct target interval tl clock with
  | case1 count tick pv saves file hlt hcond =>
    intro r hr
    rw [runLoop.eq_def, dif_pos hlt, if_pos hcond] at hr
    have hr2 : (⟨saves ++ [⟨count, clock (tick + 1), (pv.getD []).length⟩],
        .wellFormed ⟨count, clock (tick + 1), none⟩, pv, false, .timedOut⟩ : RunResult) = r := by
      injection hr
    subst hr2
    constructor
    · intro h
      exact absurd h (by simp)
    · intro _
      refine ⟨rfl, ⟨⟨count, clock (tick + 1), (pv.getD []).length⟩,
        List.getLast?_concat _, rfl⟩, 0, ?_⟩
      rw [List.map_append]
      rfl
  | case2 count tick pv saves file hlt hcond ih =>
    intro r hr
    rw [runLoop.eq_def, dif_pos hlt, if_neg hcond] at hr
    obtain ⟨ih1, ih2⟩ := ih r hr
    have hbc : batchCounts target interval count =
        min (count + interval) target ::
          batchCounts target interval (min (count + interval) target) := by
      rw [batchCounts.eq_def, if_pos hlt]
    constructor
    · intro h
      rw [ih1 h, hbc, List.map_append]
      simp [List.append_assoc]
    · intro h
      obtain ⟨hrem, hfile, k, hk⟩ := ih2 h
      refine ⟨hrem, hfile, k + 1, ?_⟩
      rw [hk, hbc, List.map_append, List.take_succ_cons, List.getLastD_cons]
      simp [List.append_assoc]
  | case3 count tick saves file hlt =>
    intro r hr
    rw [runLoop.eq_def, dif_neg hlt] at hr
    exact absurd hr (by simp)
  | case4 count tick saves file hlt ps =>
    intro r hr
    rw [runLoop.eq_def, dif_neg hlt] at hr
    have hr2 : (⟨saves, .missing, some ps, existsFile file, .completed⟩ : RunResult) = r := by
      injection hr
    subst hr2
    constructor
    · intro _
      rw [batchCounts.eq_def, if_neg hlt]
      simp
    · intro h
      exact absurd h (by simp)

/-- Save-log characterization of a whole `find_primes_with_checkpoint`
run, in terms of the resolved starting count. -/
lemma run_log (target : ℕ) (interval : ℕ+) (tl : Option ℚ) (clock : ℕ → ℚ)
    (fs : CheckpointFile) (r : RunResult)
    (hr : find_primes_with_checkpoint target interval tl clock fs = .ok r) :
    (r.outcome = .completed →
      r.saves.map (fun ev => ev.count) =
        batchCounts target interval (startCountOf fs)) ∧
    (r.outcome = .timedOut →
      r.removed = false ∧
      (∃ ev, r.saves.getLast? = some ev ∧
        r.file = .wellFormed ⟨ev.count, ev.elapsed, none⟩) ∧
      ∃ k, r.saves.map (fun ev => ev.count) =
        (batchCounts target interval (startCountOf fs)).take k ++
          [((batchCounts target interval (startCountOf fs)).take k).getLastD
            (startCountOf fs)]) := by
  rw [find_primes_with_checkpoint] at hr
  cases fs with
  | malformed => exact absurd hr (by simp [load_checkpoint])
  | missing =>
    simp only [load_checkpoint] at hr
    have h := runLoop_log target interval tl clock _ _ _ _ _ r hr
    simpa [startCountOf] using h
  | wellFormed c =>
    simp only [load_checkpoint] at hr
    have h := runLoop_log target interval tl clock _ _ _ _ _ r hr
    simpa [startCountOf] using h

end PrimeFinderCheckpoint

namespace Benchmark

/-- Embedding of `benchmark.load_checkpoint`: `json.JSONDecodeError` and
`IOError` are caught and turned into `None`. -/
def load_checkpoint : CheckpointFile → Option Checkpoint
  | .missing => none
  | .malformed => none
  | .wellFormed c => some c

/-- The command-line arguments of `benchmark.py` that reach `main`:
`--time` (default 300), `--count` (optional), `--start` (default 0) and
`--resume`/`--no-resume` (default resume). -/
structure Args where
  time : ℕ
  count : Option ℕ
  start : ℕ
  resume : Bool
deriving DecidableEq

/-- Python truthiness of `args.count` (both in the validation check and
in `mode = "count" if args.count else "time"`): an explicit `--count 0`
is falsy and selects time mode. -/
def countTruthy (a : Args) : Bool :=
  match a.count with
  | none => false
  | some c => c != 0

/-- The checkpoint considered by `main`: loaded only when `--resume` is
active and no explicit `--start` was given. -/
def resolvedCheckpoint (a : Args) (fs : CheckpointFile) : Option Checkpoint :=
  if a.resume ∧ a.start = 0 then load_checkpoint fs else none

/-- `start_count = checkpoint["count"] if checkpoint else args.start`. -/
def startCount (a : Args) (fs : CheckpointFile) : ℕ :=
  match resolvedCheckpoint a fs with
  | some c => c.count
  | none => a.start

/-- `start_elapsed = checkpoint["elapsed_time"] if checkpoint else 0`. -/
def startElapsed (a : Args) (fs : CheckpointFile) : ℚ :=
  match resolvedCheckpoint a fs with
  | some c => c.elapsed_time
  | none => 0

/-- Observable outcome of a `benchmark.main` run. -/
structure BenchResult where
  saves : List SaveEvent
  file : CheckpointFile
  primes : List ℤ
  removed : Bool
deriving DecidableEq

inductive ConfigError where
  | incompatibleArgs
deriving DecidableEq

/-- The `while True` loop of `benchmark.main` in count mode: no
checkpoint is ever saved, the file is untouched, and the loop ends with
`primes = find_n_primes(target)`.  (The elapsed-time reads and the
discarded intermediate prime lists do not affect the outcome and are not
tracked.) -/
def countLoop (target : ℕ) (fs : CheckpointFile) (count : ℕ) : BenchResult :=
  if target ≤ count + 1000 then
    ⟨[], fs, PrimeFinder.find_n_primes target, false⟩
  else countLoop target fs (count + 1000)
termination_by target - count

/-- The `while True` loop of `benchmark.main` in time mode: each
iteration computes `find_n_primes(count + 1000)`, reads the elapsed time
(`clock tick + s`, where `s` is the restored starting elapsed time),
saves a checkpoint, and stops once the elapsed time reaches the budget;
on the way out the checkpoint file (just written) is removed. -/
def timeLoop (budget : ℕ) (clock : ℕ → ℚ) (s : ℚ) (hm : Monotone clock)
    (hb : ∃ i, (budget : ℚ) ≤ clock i + s)
    (count tick : ℕ) (saves : List SaveEvent) : BenchResult :=
  if (budget : ℚ) ≤ clock tick + s then
    ⟨saves ++ [⟨count + 1000, clock tick + s,
        (PrimeFinder.find_n_primes (count + 1000)).length⟩],
      .missing, PrimeFinder.find_n_primes (count + 1000), true⟩
  else
    timeLoop budget clock s hm hb (count + 1000) (tick + 1)
      (saves ++ [⟨count + 1000, clock tick + s,
        (PrimeFinder.find_n_primes (count + 1000)).length⟩])
termination_by Nat.find hb - tick
decreasing_by
  rename_i h
  have htk : tick < Nat.find hb := by
    by_contra hge
    push_neg at hge
    have h1 : clock (Nat.find hb) ≤ clock tick := hm hge
    have h2 := Nat.find_spec hb
    exact h (le_trans h2 (by linarith))
  omega

/-- Embedding of `benchmark.main`.  The two modes of the single source
loop are split by the loop-constant `mode`; `hb` supplies the fact that
the clock eventually reaches the budget, needed only in time mode. -/
def benchmark_main (a : Args) (fs : CheckpointFile) (clock : ℕ → ℚ)
    (hm : Monotone clock)
    (hb : countTruthy a = false →
      ∃ i, (a.time : ℚ) ≤ clock i + startElapsed a fs) :
    Except ConfigError BenchResult :=
  if countTruthy a ∧ a.time ≠ 300 then .error .incompatibleArgs
  else if hc : countTruthy a then
    .ok (countLoop (a.count.getD 0) fs (startCount a fs))
  else
    .ok (timeLoop a.time clock (startElapsed a fs) hm
      (hb (by simpa using hc)) (startCount a fs) 0 [])

lemma countLoop_spec (target : ℕ) (fs : CheckpointFile) :
    ∀ count, (countLoop target fs count).saves = [] ∧
      (countLoop target fs count).removed = false ∧
      (countLoop target fs count).file = fs := by
  intro count
  induction count using countLoop.induct target fs with
  | case1 count hle =>
    rw [countLoop, if_pos hle]
    exact ⟨rfl, rfl, rfl⟩
  | case2 count hgt ih =>
    rw [countLoop, if_neg hgt]
    exact ih

lemma timeLoop_spec (budget : ℕ) (clock : ℕ → ℚ) (s : ℚ) (hm : Monotone clock)
    (hb : ∃ i, (budget : ℚ) ≤ clock i + s) :
    ∀ count tick saves,
      ∃ t, (timeLoop budget clock s hm hb count tick saves).saves = saves ++ t ∧
        t ≠ [] ∧
        (timeLoop budget clock s hm hb count tick saves).removed = true ∧
        (timeLoop budget clock s hm hb count tick saves).file = .missing ∧
        ∀ ev ∈ t, ev.count = ev.memLen := by
  intro count tick saves
  induction count, tick, saves using timeLoop.induct budget clock s hm hb with
  | case1 count tick saves hle =>
    rw [timeLoop, if_pos hle]
    refine ⟨[⟨count + 1000, clock tick + s,
      (PrimeFinder.find_n_primes (count + 1000)).length⟩], rfl, by simp, rfl, rfl, ?_⟩
    intro ev hev
    rw [List.mem_singleton] at hev
    subst hev
    exact (PrimeFinder.find_n_primes_length _).symm
  | case2 count tick saves hgt ih =>
    rw [timeLoop, if_neg hgt]
    obtain ⟨t', h1, _, h3, h4, h5⟩ := ih
    refine ⟨⟨count + 1000, clock tick + s,
      (PrimeFinder.find_n_primes (count + 1000)).length⟩ :: t', ?_, by simp, h3, h4, ?_⟩
    · rw [h1, List.append_assoc]
      rfl
    · intro ev hev
      rcases List.mem_cons.mp hev with rfl | hmem
      · exact (PrimeFinder.find_n_primes_length _).symm
      · exact h5 ev hmem

end Benchmark

namespace BenchmarkParallel

/-- Embedding of `benchmark_parallel.load_checkpoint`: exceptions are
caught and turned into `None`. -/
def load_checkpoint : CheckpointFile → Option Checkpoint
  | .missing => none
  | .malformed => none
  | .wellFormed c => some c

inductive BPError where
  | unboundLocalError
deriving DecidableEq

/-- Observable outcome of a `benchmark_parallel.main` run. -/
structure BPResult where
  saves : List SaveEvent
  file : CheckpointFile
  primes : List ℤ
  removed : Bool
deriving DecidableEq

/-- The `while time.time() - start_time < 300` loop of
`benchmark_parallel.main`: the loop condition consumes one clock read
and the in-body elapsed measurement the next; each iteration saves a
checkpoint recording the freshly computed prime count.  A run whose
first condition check already exceeds 300 s reads the unassigned
`primes` variable in the summary. -/
noncomputable def parallelLoop (np : ℕ) (clock : ℕ → ℚ) (hm : Monotone clock)
    (hb : ∃ i, (300 : ℚ) ≤ clock i)
    (count tick : ℕ) (pv : Option (List ℤ)) (saves : List SaveEvent)
    (file : CheckpointFile) : Except BPError BPResult :=
  if clock tick < 300 then
    parallelLoop np clock hm hb (count + 1000) (tick + 2)
      (some (PrimeFinderParallel.find_n_primes_parallel (count + 1000) np))
      (saves ++ [⟨count + 1000, clock (tick + 1),
        (PrimeFinderParallel.find_n_primes_parallel (count + 1000) np).length⟩])
      (.wellFormed ⟨count + 1000, clock (tick + 1), some np⟩)
  else
    match pv with
    | none => .error .unboundLocalError
    | some ps => .ok ⟨saves, .missing, ps, PrimeFinderCheckpoint.existsFile file⟩
termination_by Nat.find hb - tick
decreasing_by
  rename_i h
  have htk : tick < Nat.find hb := by
    by_contra hge
    push_neg at hge
    have h1 : clock (Nat.find hb) ≤ clock tick := hm hge
    have h2 := Nat.find_spec hb
    linarith
  omega

/-- Embedding of `benchmark_parallel.main`: the checkpoint (if loadable)
supplies the starting count and possibly the worker count; the elapsed
time is not restored. -/
noncomputable def benchmark_parallel_main (np : ℕ) (clock : ℕ → ℚ)
    (hm : Monotone clock) (hb : ∃ i, (300 : ℚ) ≤ clock i)
    (fs : CheckpointFile) : Except BPError BPResult :=
  match load_checkpoint fs with
  | some c => parallelLoop (c.num_processes.getD np) clock hm hb c.count 0 none [] fs
  | none => parallelLoop np clock hm hb 0 0 none [] fs

lemma parallelLoop_saves (np : ℕ) (clock : ℕ → ℚ) (hm : Monotone clock)
    (hb : ∃ i, (300 : ℚ) ≤ clock i) :
    ∀ count tick pv saves file r,
      parallelLoop np clock hm hb count tick pv saves file = .ok r →
      ∃ t, r.saves = saves ++ t ∧ ∀ ev ∈ t, ev.count = ev.memLen := by
  intro count tick pv saves file
  induction count, tick, pv, saves, file using parallelLoop.induct np clock hm hb with
  | case1 count tick pv saves file hlt ih =>
    intro r hr
    rw [parallelLoop.eq_def, if_pos hlt] at hr
    obtain ⟨t', h1, h2⟩ := ih r hr
    refine ⟨⟨count + 1000, clock (tick + 1),
      (PrimeFinderParallel.find_n_primes_parallel (count + 1000) np).length⟩ :: t', ?_, ?_⟩
    · rw [h1, List.append_assoc]
      rfl
    · intro ev hev
      rcases List.mem_cons.mp hev with rfl | hmem
      · exact (PrimeFinderParallel.find_n_primes_parallel_length _ _).symm
      · exact h2 ev hmem
  | case2 count tick saves file hge =>
    intro r hr
    rw [parallelLoop.eq_def, if_neg hge] at hr
    exact absurd hr (by simp)
  | case3 count tick saves file hge ps =>
    intro r hr
    rw [parallelLoop.eq_def, if_neg hge] at hr
    have hr2 : (⟨saves, .missing, ps, PrimeFinderCheckpoint.existsFile file⟩ : BPResult) = r := by
      injection hr
    subst hr2
    exact ⟨[], by simp, by simp⟩

/-- Every save of the parallel benchmark records the in-memory count. -/
lemma benchmark_parallel_saves (np : ℕ) (clock : ℕ → ℚ) (hm : Monotone clock)
    (hb : ∃ i, (300 : ℚ) ≤ clock i) (fs : CheckpointFile) (r : BPResult)
    (hr : benchmark_parallel_main np clock hm hb fs = .ok r) :
    ∀ ev ∈ r.saves, ev.count = ev.memLen := by
  rw [benchmark_parallel_main] at hr
  cases fs with
  | missing =>
    simp only [load_checkpoint] at hr
    obtain ⟨t, h1, h2⟩ := parallelLoop_saves np clock hm hb _ _ _ _ _ _ hr
    rw [h1, List.nil_append]
    exact h2
  | malformed =>
    simp only [load_checkpoint] at hr
    obtain ⟨t, h1, h2⟩ := parallelLoop_saves np clock hm hb _ _ _ _ _ _ hr
    rw [h1, List.nil_append]
    exact h2
  | wellFormed c =>
    simp only [load_checkpoint] at hr
    obtain ⟨t, h1, h2⟩ := parallelLoop_saves _ clock hm hb _ _ _ _ _ _ hr
    rw [h1, List.nil_append]
    exact h2

end BenchmarkParallel

section ConcreteValues

lemma firstPrimes_zero : firstPrimes 0 = [] := rfl

lemma firstPrimes_one : firstPrimes 1 = [2] := by
  rw [firstPrimes, show List.range 1 = [0] from by decide, List.map_singleton,
    PrimeFinderParallel.nth_prime_zero]
  rfl

lemma firstPrimes_two : firstPrimes 2 = [2, 3] := by
  rw [firstPrimes, show List.range 2 = [0, 1] from by decide]
  simp only [List.map_cons, List.map_nil, PrimeFinderParallel.nth_prime_zero,
    PrimeFinderParallel.nth_prime_one]
  rfl

lemma firstPrimes_five : firstPrimes 5 = [2, 3, 5, 7, 11] := by
  rw [firstPrimes, show List.range 5 = [0, 1, 2, 3, 4] from by decide]
  simp only [List.map_cons, List.map_nil, PrimeFinderParallel.nth_prime_zero,
    PrimeFinderParallel.nth_prime_one, PrimeFinderParallel.nth_prime_two,
    PrimeFinderParallel.nth_prime_three, PrimeFinderParallel.nth_prime_four]
  rfl

lemma find_n_primes_one : PrimeFinder.find_n_primes 1 = [2] := by
  rw [PrimeFinder.find_n_primes_eq, firstPrimes_one]

lemma find_n_primes_two : PrimeFinder.find_n_primes 2 = [2, 3] := by
  rw [PrimeFinder.find_n_primes_eq, firstPrimes_two]

lemma find_primes_up_to_ten : PrimeFinder.find_primes_up_to 10 = [2, 3, 5, 7] := by
  simp only [PrimeFinder.find_primes_up_to, PrimeFinder.is_prime_eq_decide]
  decide

end ConcreteValues

/-- Claim C1: for every integer `n`, `is_prime(n)` returns false if
`n < 2`, true if `n = 2`, false if `n` is even and greater than 2, and
otherwise decides by odd trial division up to `√n` — equivalently,
`is_prime(n)` is true if and only if `n` is a prime number. -/
theorem claim_C1 :
    (∀ n : ℤ, n < 2 → PrimeFinder.is_prime n = false) ∧
    PrimeFinder.is_prime 2 = true ∧
    (∀ n : ℤ, 2 < n → n % 2 = 0 → PrimeFinder.is_prime n = false) ∧
    (∀ n : ℤ, PrimeFinder.is_prime n = true ↔ ∃ p : ℕ, Nat.Prime p ∧ n = (p : ℤ)) := by
  refine ⟨?_, ?_, ?_, ?_⟩
  · intro n h
    rw [PrimeFinder.is_prime, if_pos h]
  · exact (PrimeFinder.is_prime_iff 2).mpr ⟨le_refl 2, by decide⟩
  · intro n h1 h2
    rw [PrimeFinder.is_prime, if_neg (by omega), if_neg (by omega), if_pos h2]
  · intro n
    rw [PrimeFinder.is_prime_iff]
    constructor
    · rintro ⟨h2, hp⟩
      exact ⟨n.toNat, hp, by omega⟩
    · rintro ⟨p, hp, rfl⟩
      exact ⟨by exact_mod_cast hp.two_le, by simpa using hp⟩

/-- Witness for C1 at concrete inputs. -/
theorem claim_C1_witness :
    PrimeFinder.is_prime (-5) = false ∧ PrimeFinder.is_prime 10 = false ∧
      PrimeFinder.is_prime 97 = true :=
  ⟨claim_C1.1 (-5) (by decide), claim_C1.2.2.1 10 (by decide) (by decide),
    (claim_C1.2.2.2 97).mpr ⟨97, by norm_num, rfl⟩⟩

/-- Claim C2: for every count, `find_n_primes(count)` — and
`find_n_primes_parallel(count, w)` for any positive worker count — is
exactly the list of the first `count` primes in ascending order; in
particular count 5 gives `[2, 3, 5, 7, 11]`, count 1 gives `[2]`, and
count 0 gives `[]`. -/
theorem claim_C2 : ∀ count w : ℕ, 0 < w →
    PrimeFinder.find_n_primes count = firstPrimes count ∧
    PrimeFinderParallel.find_n_primes_parallel count w = firstPrimes count ∧
    PrimeFinder.find_n_primes 5 = [2, 3, 5, 7, 11] ∧
    PrimeFinder.find_n_primes 1 = [2] ∧
    PrimeFinder.find_n_primes 0 = [] := by
  intro count w _
  refine ⟨PrimeFinder.find_n_primes_eq count,
    PrimeFinderParallel.find_n_primes_parallel_eq count w, ?_, find_n_primes_one, ?_⟩
  · rw [PrimeFinder.find_n_primes_eq, firstPrimes_five]
  · rw [PrimeFinder.find_n_primes_eq, firstPrimes_zero]

/-- Witness for C2 at count 5 with 2 workers. -/
theorem claim_C2_witness :
    PrimeFinder.find_n_primes 5 = firstPrimes 5 ∧
    PrimeFinderParallel.find_n_primes_parallel 5 2 = firstPrimes 5 ∧
    PrimeFinder.find_n_primes 5 = [2, 3, 5, 7, 11] ∧
    PrimeFinder.find_n_primes 1 = [2] ∧
    PrimeFinder.find_n_primes 0 = [] :=
  claim_C2 5 2 (by decide)

/-- Claim C3: `find_primes_up_to(limit)` is strictly ascending and
duplicate-free, and contains exactly the integers `n` with
`2 ≤ n ≤ limit` and `is_prime(n)`; the scan of `[2, 10]` yields
`[2, 3, 5, 7]`. -/
theorem claim_C3 :
    (∀ limit : ℤ, (PrimeFinder.find_primes_up_to limit).Pairwise (· < ·) ∧
      ∀ n : ℤ, n ∈ PrimeFinder.find_primes_up_to limit ↔
        2 ≤ n ∧ n ≤ limit ∧ PrimeFinder.is_prime n = true) ∧
    PrimeFinder.find_primes_up_to 10 = [2, 3, 5, 7] :=
  ⟨fun limit => ⟨PrimeFinder.find_primes_up_to_pairwise limit,
    fun _ => PrimeFinder.mem_find_primes_up_to⟩, find_primes_up_to_ten⟩

/-- Claim C4: the parallel scanner equals the sequential one for every
limit and every positive worker count (results are merged in candidate
order, not completion order). -/
theorem claim_C4 : ∀ (limit : ℤ) (w : ℕ), 0 < w →
    PrimeFinderParallel.find_primes_up_to_parallel limit w =
      PrimeFinder.find_primes_up_to limit :=
  fun limit w _ => PrimeFinderParallel.find_primes_up_to_parallel_eq limit w

/-- Witness for C4 at limit 10 with 2 workers. -/
theorem claim_C4_witness :
    PrimeFinderParallel.find_primes_up_to_parallel 10 2 =
      PrimeFinder.find_primes_up_to 10 :=
  claim_C4 10 2 (by decide)

/-- Claim C5 (code bug): the spec requires every checkpoint loader to
return none on a missing or malformed file, never raising.  The two
benchmark loaders do catch parse errors, but
`prime_finder_checkpoint.load_checkpoint` calls `json.load` with no
handler, so an existing-but-malformed file raises
`json.JSONDecodeError` instead of returning none. -/
theorem claim_C5_eval :
    PrimeFinderCheckpoint.load_checkpoint .malformed = .error () ∧
    PrimeFinderCheckpoint.load_checkpoint .missing = .ok none ∧
    Benchmark.load_checkpoint .malformed = none ∧
    Benchmark.load_checkpoint .missing = none ∧
    BenchmarkParallel.load_checkpoint .malformed = none ∧
    BenchmarkParallel.load_checkpoint .missing = none :=
  ⟨rfl, rfl, rfl, rfl, rfl, rfl⟩

/-- Claim C8: the range-expansion policy of `find_n_primes_parallel`
uses initial bound `int(N·(ln N + ln ln N))` for `N ≥ 6` and 15 for
`N < 6`, multiplies the bound by 1.5 (truncated) whenever a full scan of
`[2, bound]` yields fewer than `N` primes, and stops at the first bound
yielding at least `N` primes, of which the first `N` are returned. -/
theorem claim_C8 : ∀ count w : ℕ, 2 ≤ count → 0 < w →
    (PrimeFinderParallel.initial_upper_bound count =
      if count < 6 then 15
      else ⌊(count : ℝ) * (Real.log count + Real.log (Real.log count))⌋) ∧
    (∀ b : ℕ, PrimeFinderParallel.nextBound b = ⌊(3 / 2 : ℚ) * b⌋₊) ∧
    ∃ k : ℕ,
      (∀ j < k,
        (PrimeFinderParallel.find_primes_up_to_parallel
          ((PrimeFinderParallel.nextBound^[j]
            (PrimeFinderParallel.initial_upper_bound count).toNat : ℕ) : ℤ) w).length < count) ∧
      count ≤ (PrimeFinderParallel.find_primes_up_to_parallel
        ((PrimeFinderParallel.nextBound^[k]
          (PrimeFinderParallel.initial_upper_bound count).toNat : ℕ) : ℤ) w).length ∧
      PrimeFinderParallel.find_n_primes_parallel count w =
        (PrimeFinderParallel.find_primes_up_to_parallel
          ((PrimeFinderParallel.nextBound^[k]
            (PrimeFinderParallel.initial_upper_bound count).toNat : ℕ) : ℤ) w).take count := by
  intro count w hc _
  refine ⟨rfl, PrimeFinderParallel.nextBound_eq_floor, ?_⟩
  have hmain : PrimeFinderParallel.find_n_primes_parallel count w =
      PrimeFinderParallel.find_n_primes_parallel_from count w
        (PrimeFinderParallel.initial_upper_bound count).toNat
        (PrimeFinderParallel.initial_upper_bound_toNat_ge_two hc) := by
    rw [PrimeFinderParallel.find_n_primes_parallel, dif_neg (by omega), dif_neg (by omega)]
  rw [hmain]
  exact PrimeFinderParallel.find_n_primes_parallel_from_iter count w _ _

/-- Witness for C8 at count 2 with 1 worker. -/
theorem claim_C8_witness :
    (PrimeFinderParallel.initial_upper_bound 2 =
      if 2 < 6 then 15
      else ⌊(2 : ℝ) * (Real.log 2 + Real.log (Real.log 2))⌋) ∧
    (∀ b : ℕ, PrimeFinderParallel.nextBound b = ⌊(3 / 2 : ℚ) * b⌋₊) ∧
    ∃ k : ℕ,
      (∀ j < k,
        (PrimeFinderParallel.find_primes_up_to_parallel
          ((PrimeFinderParallel.nextBound^[j]
            (PrimeFinderParallel.initial_upper_bound 2).toNat : ℕ) : ℤ) 1).length < 2) ∧
      2 ≤ (PrimeFinderParallel.find_primes_up_to_parallel
        ((PrimeFinderParallel.nextBound^[k]
          (PrimeFinderParallel.initial_upper_bound 2).toNat : ℕ) : ℤ) 1).length ∧
      PrimeFinderParallel.find_n_primes_parallel 2 1 =
        (PrimeFinderParallel.find_primes_up_to_parallel
          ((PrimeFinderParallel.nextBound^[k]
            (PrimeFinderParallel.initial_upper_bound 2).toNat : ℕ) : ℤ) 1).take 2 :=
  claim_C8 2 1 (le_refl 2) (by decide)

/-- Claim C10: calling `find_primes_with_checkpoint` while the existing
checkpoint already records at least `target_count` primes skips the
batch loop entirely, and the completion summary then reads the
never-assigned `primes` variable, raising `UnboundLocalError`. -/
theorem claim_C10 : ∀ (target : ℕ) (interval : ℕ+) (tl : Option ℚ)
    (clock : ℕ → ℚ) (c : ℕ) (e : ℚ) (np : Option ℕ), target ≤ c →
    PrimeFinderCheckpoint.find_primes_with_checkpoint target interval tl clock
        (.wellFormed ⟨c, e, np⟩) =
      .error .unboundLocalError :=
  fun target interval tl clock c e np hc =>
    PrimeFinderCheckpoint.run_unboundLocal target interval tl clock c e np hc

/-- Witness for C10: a checkpoint of 5 primes and a target of 5. -/
theorem claim_C10_witness :
    PrimeFinderCheckpoint.find_primes_with_checkpoint 5 1000 none (fun _ => 0)
        (.wellFormed ⟨5, 0, none⟩) =
      .error .unboundLocalError :=
  claim_C10 5 1000 none (fun _ => 0) 5 0 none (le_refl 5)

/-- Counterexample to C6: a run of `find_primes_with_checkpoint` with a
time limit (100 s, never reached) whose target count 1 is reached in the
first batch.  The run writes a checkpoint for the batch and then removes
the file on the target-reached completion path — contradicting both "a
run that stops because its target count was reached does not remove the
checkpoint" and "a count-bounded run never writes a checkpoint". -/
theorem claim_C6_counterexample :
    PrimeFinderCheckpoint.find_primes_with_checkpoint 1 1000 (some 100) (fun _ => 0)
        .missing =
      .ok ⟨[⟨1, 0, 1⟩], .missing, some [2], true, .completed⟩ := by
  rw [PrimeFinderCheckpoint.find_primes_with_checkpoint]
  simp only [PrimeFinderCheckpoint.load_checkpoint]
  rw [PrimeFinderCheckpoint.runLoop.eq_def]
  norm_num [PrimeFinderCheckpoint.timeLimitActive]
  rw [find_n_primes_one]
  rw [PrimeFinderCheckpoint.runLoop.eq_def]
  norm_num [PrimeFinderCheckpoint.existsFile]

/-- C6 as amended: in `benchmark.py`, a count-mode run never writes nor
removes a checkpoint, and a time-mode run that completes naturally
removes its checkpoint (having written at least one).  In
`find_primes_with_checkpoint`, however, a checkpoint is written after
every batch in every mode — a completed run's save log is exactly one
entry per batch (`batchCounts`), and reaching the target count removes
the file — while a run stopped by the time limit keeps the checkpoint:
`removed = false`, the file still holds the final (timeout) save, and
the log is the executed-batch prefix followed by the timeout save
repeating the last count. -/
theorem claim_C6_amended :
    (∀ (a : Benchmark.Args) (fs : CheckpointFile) (clock : ℕ → ℚ)
      (hm : Monotone clock)
      (hb : Benchmark.countTruthy a = false →
        ∃ i, (a.time : ℚ) ≤ clock i + Benchmark.startElapsed a fs)
      (r : Benchmark.BenchResult),
      Benchmark.countTruthy a = true →
      Benchmark.benchmark_main a fs clock hm hb = .ok r →
      r.saves = [] ∧ r.removed = false ∧ r.file = fs) ∧
    (∀ (a : Benchmark.Args) (fs : CheckpointFile) (clock : ℕ → ℚ)
      (hm : Monotone clock)
      (hb : Benchmark.countTruthy a = false →
        ∃ i, (a.time : ℚ) ≤ clock i + Benchmark.startElapsed a fs)
      (r : Benchmark.BenchResult),
      Benchmark.countTruthy a = false →
      Benchmark.benchmark_main a fs clock hm hb = .ok r →
      r.removed = true ∧ r.file = .missing ∧ r.saves ≠ []) ∧
    (∀ (target : ℕ) (interval : ℕ+) (tl : Option ℚ) (clock : ℕ → ℚ)
      (fs : CheckpointFile) (r : PrimeFinderCheckpoint.RunResult),
      PrimeFinderCheckpoint.find_primes_with_checkpoint target interval tl clock fs =
        .ok r →
      r.outcome = .completed →
      r.file = .missing ∧ r.removed = true ∧ r.saves ≠ []) ∧
    (∀ (target : ℕ) (interval : ℕ+) (tl : Option ℚ) (clock : ℕ → ℚ)
      (fs : CheckpointFile) (r : PrimeFinderCheckpoint.RunResult),
      PrimeFinderCheckpoint.find_primes_with_checkpoint target interval tl clock fs =
        .ok r →
      r.outcome = .completed →
      r.saves.map (fun ev => ev.count) =
        PrimeFinderCheckpoint.batchCounts target interval
          (PrimeFinderCheckpoint.startCountOf fs)) ∧
    (∀ (target : ℕ) (interval : ℕ+) (tl : Option ℚ) (clock : ℕ → ℚ)
      (fs : CheckpointFile) (r : PrimeFinderCheckpoint.RunResult),
      PrimeFinderCheckpoint.find_primes_with_checkpoint target interval tl clock fs =
        .ok r →
      r.outcome = .timedOut →
      r.removed = false ∧
      (∃ ev, r.saves.getLast? = some ev ∧
        r.file = .wellFormed ⟨ev.count, ev.elapsed, none⟩) ∧
      ∃ k, r.saves.map (fun ev => ev.count) =
        (PrimeFinderCheckpoint.batchCounts target interval
          (PrimeFinderCheckpoint.startCountOf fs)).take k ++
          [((PrimeFinderCheckpoint.batchCounts target interval
            (PrimeFinderCheckpoint.startCountOf fs)).take k).getLastD
            (PrimeFinderCheckpoint.startCountOf fs)]) := by
  refine ⟨?_, ?_, ?_, ?_, ?_⟩
  · intro a fs clock hm hb r hc hr
    rw [Benchmark.benchmark_main] at hr
    by_cases hcfg : Benchmark.countTruthy a = true ∧ a.time ≠ 300
    · rw [if_pos hcfg] at hr
      exact absurd hr (by simp)
    · rw [if_neg hcfg, dif_pos hc] at hr
      have hr2 : Benchmark.countLoop (a.count.getD 0) fs (Benchmark.startCount a fs) = r := by
        injection hr
      subst hr2
      exact Benchmark.countLoop_spec _ fs _
  · intro a fs clock hm hb r hc hr
    rw [Benchmark.benchmark_main] at hr
    rw [if_neg (by simp [hc]), dif_neg (by simp [hc])] at hr
    have hr2 : Benchmark.timeLoop a.time clock (Benchmark.startElapsed a fs) hm
        (hb hc) (Benchmark.startCount a fs) 0 [] = r := by
      injection hr
    subst hr2
    obtain ⟨t, h1, h2, h3, h4, _⟩ :=
      Benchmark.timeLoop_spec a.time clock (Benchmark.startElapsed a fs) hm (hb hc)
        (Benchmark.startCount a fs) 0 []
    refine ⟨h3, h4, ?_⟩
    rw [h1, List.nil_append]
    exact h2
  · intro target interval tl clock fs r hr hout
    exact PrimeFinderCheckpoint.run_completed target interval tl clock fs r hr hout
  · intro target interval tl clock fs r hr hout
    exact (PrimeFinderCheckpoint.run_log target interval tl clock fs r hr).1 hout
  · intro target interval tl clock fs r hr hout
    exact (PrimeFinderCheckpoint.run_log target interval tl clock fs r hr).2 hout

/-- Witness for C6 (amended), count mode: `--count 7` with the default
time, fresh file, constant clock. -/
theorem claim_C6_amended_witness :
    (Benchmark.countLoop 7 .missing 0).saves = [] ∧
    (Benchmark.countLoop 7 .missing 0).removed = false ∧
    (Benchmark.countLoop 7 .missing 0).file = .missing :=
  claim_C6_amended.1 ⟨300, some 7, 0, true⟩ .missing (fun _ => 0) monotone_const
    (fun h => absurd h (by decide)) _ (by decide) rfl

/-- Counterexample to C7: a run of `find_primes_with_checkpoint` resumed
from a checkpoint recording 42 s of elapsed time, with every clock read
equal to 7.  The claim's starting-elapsed rule would make the batch save
record 42 + 7 = 49 s; the code records 7 s, because
`start_time = time.time()` discards the checkpoint's elapsed time. -/
theorem claim_C7_counterexample :
    PrimeFinderCheckpoint.find_primes_with_checkpoint 2 1 none (fun _ => 7)
        (.wellFormed ⟨1, 42, none⟩) =
      .ok ⟨[⟨2, 7, 2⟩], .missing, some [2, 3], true, .completed⟩ ∧ (7 : ℚ) ≠ 42 + 7 := by
  constructor
  · rw [PrimeFinderCheckpoint.find_primes_with_checkpoint]
    simp only [PrimeFinderCheckpoint.load_checkpoint]
    rw [PrimeFinderCheckpoint.runLoop.eq_def]
    norm_num [PrimeFinderCheckpoint.timeLimitActive]
    rw [find_n_primes_two]
    rw [PrimeFinderCheckpoint.runLoop.eq_def]
    norm_num [PrimeFinderCheckpoint.existsFile]
  · norm_num

/-- C7 as amended: in `benchmark.py` the starting count is the explicit
start when nonzero (bypassing loading entirely), else the checkpoint's
count when resume is enabled, else 0, and the starting elapsed time is
the loaded checkpoint's elapsed time or 0; `find_primes_with_checkpoint`
resumes only the count — its behaviour is independent of the
checkpoint's recorded elapsed time, i.e. the starting elapsed time is
always 0. -/
theorem claim_C7_amended :
    (∀ (a : Benchmark.Args) (fs : CheckpointFile), a.start ≠ 0 →
      Benchmark.resolvedCheckpoint a fs = none ∧
      Benchmark.startCount a fs = a.start ∧ Benchmark.startElapsed a fs = 0) ∧
    (∀ (a : Benchmark.Args) (c : Checkpoint), a.start = 0 → a.resume = true →
      Benchmark.startCount a (.wellFormed c) = c.count ∧
      Benchmark.startElapsed a (.wellFormed c) = c.elapsed_time) ∧
    (∀ (a : Benchmark.Args) (fs : CheckpointFile),
      Benchmark.resolvedCheckpoint a fs = none →
      Benchmark.startCount a fs = a.start ∧ Benchmark.startElapsed a fs = 0) ∧
    (∀ (target : ℕ) (interval : ℕ+) (tl : Option ℚ) (clock : ℕ → ℚ)
      (c : ℕ) (e e' : ℚ) (np np' : Option ℕ),
      PrimeFinderCheckpoint.find_primes_with_checkpoint target interval tl clock
          (.wellFormed ⟨c, e, np⟩) =
        PrimeFinderCheckpoint.find_primes_with_checkpoint target interval tl clock
          (.wellFormed ⟨c, e', np'⟩)) := by
  refine ⟨?_, ?_, ?_, ?_⟩
  · intro a fs hs
    have h1 : Benchmark.resolvedCheckpoint a fs = none := by
      rw [Benchmark.resolvedCheckpoint, if_neg]
      rintro ⟨_, h⟩
      exact hs h
    rw [Benchmark.startCount, Benchmark.startElapsed, h1]
    exact ⟨rfl, rfl, rfl⟩
  · intro a c hs hres
    have h1 : Benchmark.resolvedCheckpoint a (.wellFormed c) = some c := by
      rw [Benchmark.resolvedCheckpoint, if_pos ⟨by rw [hres], hs⟩]
      rfl
    rw [Benchmark.startCount, Benchmark.startElapsed, h1]
    exact ⟨rfl, rfl⟩
  · intro a fs h1
    rw [Benchmark.startCount, Benchmark.startElapsed, h1]
    exact ⟨rfl, rfl⟩
  · intro target interval tl clock c e e' np np'
    exact PrimeFinderCheckpoint.run_ignores_elapsed target interval tl clock c e e' np np'

/-- Witness for C7 (amended): an explicit `--start 5` run with a
checkpoint present resolves to start count 5 and elapsed 0. -/
theorem claim_C7_amended_witness :
    Benchmark.resolvedCheckpoint ⟨300, none, 5, true⟩ (.wellFormed ⟨9, 3, none⟩) = none ∧
    Benchmark.startCount ⟨300, none, 5, true⟩ (.wellFormed ⟨9, 3, none⟩) = 5 ∧
    Benchmark.startElapsed ⟨300, none, 5, true⟩ (.wellFormed ⟨9, 3, none⟩) = 0 :=
  claim_C7_amended.1 ⟨300, none, 5, true⟩ (.wellFormed ⟨9, 3, none⟩) (by decide)

/-- Counterexample to C9: a `find_primes_with_checkpoint` run resumed
from a checkpoint of 1000 primes whose time limit (10 s) has already
expired at the first loop check.  The timeout path saves a checkpoint
recording count 1000 while the `primes` variable is still unassigned —
the in-memory prime sequence is empty, not of length 1000. -/
theorem claim_C9_counterexample :
    PrimeFinderCheckpoint.find_primes_with_checkpoint 2000 1000 (some 10) (fun _ => 11)
        (.wellFormed ⟨1000, 5, none⟩) =
      .ok ⟨[⟨1000, 11, 0⟩], .wellFormed ⟨1000, 11, none⟩, none, false, .timedOut⟩ ∧
    (1000 : ℕ) ≠ 0 := by
  constructor
  · rw [PrimeFinderCheckpoint.find_primes_with_checkpoint]
    simp only [PrimeFinderCheckpoint.load_checkpoint]
    rw [PrimeFinderCheckpoint.runLoop.eq_def]
    norm_num [PrimeFinderCheckpoint.timeLimitActive]
  · decide

/-- C9 as amended: every save of `benchmark.py` and of
`benchmark_parallel.py`, and every save of a fresh (checkpoint-less)
`find_primes_with_checkpoint` run, records a count equal to the length
of the prime list in memory at the moment of the save; only the timeout
save of a resumed `find_primes_with_checkpoint` run can record the
checkpoint's count with no list in memory. -/
theorem claim_C9_amended :
    (∀ (a : Benchmark.Args) (fs : CheckpointFile) (clock : ℕ → ℚ)
      (hm : Monotone clock)
      (hb : Benchmark.countTruthy a = false →
        ∃ i, (a.time : ℚ) ≤ clock i + Benchmark.startElapsed a fs)
      (r : Benchmark.BenchResult),
      Benchmark.benchmark_main a fs clock hm hb = .ok r →
      ∀ ev ∈ r.saves, ev.count = ev.memLen) ∧
    (∀ (np : ℕ) (clock : ℕ → ℚ) (hm : Monotone clock)
      (hb : ∃ i, (300 : ℚ) ≤ clock i) (fs : CheckpointFile)
      (r : BenchmarkParallel.BPResult),
      BenchmarkParallel.benchmark_parallel_main np clock hm hb fs = .ok r →
      ∀ ev ∈ r.saves, ev.count = ev.memLen) ∧
    (∀ (target : ℕ) (interval : ℕ+) (tl : Option ℚ) (clock : ℕ → ℚ)
      (r : PrimeFinderCheckpoint.RunResult),
      PrimeFinderCheckpoint.find_primes_with_checkpoint target interval tl clock
          .missing = .ok r →
      ∀ ev ∈ r.saves, ev.count = ev.memLen) := by
  refine ⟨?_, ?_, ?_⟩
  · intro a fs clock hm hb r hr
    rw [Benchmark.benchmark_main] at hr
    by_cases hcfg : Benchmark.countTruthy a = true ∧ a.time ≠ 300
    · rw [if_pos hcfg] at hr
      exact absurd hr (by simp)
    · rw [if_neg hcfg] at hr
      by_cases hc : Benchmark.countTruthy a = true
      · rw [dif_pos hc] at hr
        have hr2 : Benchmark.countLoop (a.count.getD 0) fs (Benchmark.startCount a fs) = r := by
          injection hr
        subst hr2
        obtain ⟨h1, _, _⟩ := Benchmark.countLoop_spec (a.count.getD 0) fs (Benchmark.startCount a fs)
        rw [h1]
        intro ev hev
        exact absurd hev (List.not_mem_nil ev)
      · rw [dif_neg hc] at hr
        have hc' : Benchmark.countTruthy a = false := by simpa using hc
        have hr2 : Benchmark.timeLoop a.time clock (Benchmark.startElapsed a fs) hm
            (hb hc') (Benchmark.startCount a fs) 0 [] = r := by
          injection hr
        subst hr2
        obtain ⟨t, h1, _, _, _, h5⟩ :=
          Benchmark.timeLoop_spec a.time clock (Benchmark.startElapsed a fs) hm (hb hc')
            (Benchmark.startCount a fs) 0 []
        rw [h1, List.nil_append]
        exact h5
  · intro np clock hm hb fs r hr
    exact BenchmarkParallel.benchmark_parallel_saves np clock hm hb fs r hr
  · intro target interval tl clock r hr
    exact PrimeFinderCheckpoint.run_saves_match_of_missing target interval tl clock r hr

/-- Witness for C9 (amended) on a concrete count-mode benchmark run. -/
theorem claim_C9_amended_witness :
    ∀ ev ∈ (Benchmark.countLoop 7 .missing 0).saves, ev.count = ev.memLen :=
  claim_C9_amended.1 ⟨300, some 7, 0, true⟩ .missing (fun _ => 0) monotone_const
    (fun h => absurd h (by decide)) _ rfl
